import Mathlib

/-!
Shallow embedding of the transaction-categorizer core
(`app/rules.py`, `app/model.py`, `app/ml_model.py`).

Python strings are modelled as lists of Unicode codepoints (`PyStr`).
Whitespace, case mapping, `\w`/`\b` word characters and digits are modelled
over the ASCII range, which is the range the rule table and the cited spec
examples exercise.
-/

namespace TxCat

/-- Python strings, as lists of Unicode codepoints. -/
abbrev PyStr := List Nat

/-- Codepoints of a Lean string literal, used to transcribe the Python
string and pattern literals of the source. -/
def litOfString (s : String) : PyStr := s.data.map Char.toNat

/-- Whitespace as recognized by `str.strip` and `re` `\s` (ASCII range):
space, tab, newline, carriage return, form feed, vertical tab. -/
def isPySpace (c : Nat) : Bool :=
  c == 32 || c == 9 || c == 10 || c == 13 || c == 12 || c == 11

/-- ASCII lowercase letters `a`-`z`. -/
def isLowerAscii (c : Nat) : Bool := 97 ≤ c && c ≤ 122

/-- `str.upper` on one codepoint (ASCII case mapping). -/
def upChar (c : Nat) : Nat := if isLowerAscii c then c - 32 else c

/-- `str.strip()`: drop leading and trailing whitespace. -/
def pyStrip (l : PyStr) : PyStr :=
  ((l.dropWhile isPySpace).reverse.dropWhile isPySpace).reverse

/-- `re.sub(r"\s+", " ", s)`: replace each maximal whitespace run by a
single ASCII space.  The flag records that the previous character was
whitespace whose run already emitted its space. -/
def collapseAux : Bool → PyStr → PyStr
  | _, [] => []
  | inWs, c :: cs =>
    if isPySpace c then
      if inWs then collapseAux true cs else 32 :: collapseAux true cs
    else c :: collapseAux false cs

def collapseWs (l : PyStr) : PyStr := collapseAux false l

/-- `rules.normalize_description`: `None` becomes `""`; otherwise
`str(text).strip().upper()` followed by whitespace-run collapsing. -/
def normalize_description (text : Option PyStr) : PyStr :=
  match text with
  | none => []
  | some t => collapseWs ((pyStrip t).map upChar)

/-! ### The rule patterns

Every pattern in the source's `RULES` table is one of five regex shapes:

* a plain literal (all escapes in the source denote literal characters),
  searched anywhere in the string — `Pat.sub`;
* `^\s*LIT\s*$` (only `R001`) — `Pat.lineAnchored`;
* `^\s*LIT\b.*` (only `R002`) — `Pat.startAnchoredWordB`;
* `\bLIT\b.*` (`R088`–`R095`) — `Pat.wordBounded`;
* `\bLIT[A-Z0-9]+` (only `R005`, where `LIT` is `AMAZON.FR*`) —
  `Pat.wordBClassPlus`.

`Pat.search` interprets each shape with Python `re.search` semantics
(match anywhere; `^`/`$` anchor to the whole string, there is no
MULTILINE flag; `$` also matches just before a final newline, which for
shape `lineAnchored` is absorbed by the trailing `\s*`).  The literals of
the anchored shapes start with a non-whitespace character and the
word-bounded literals start and end with word characters, which the
interpretations below rely on. -/

/-- `\w` (ASCII range): letters, digits, underscore. -/
def isWordChar (c : Nat) : Bool :=
  (48 ≤ c && c ≤ 57) || (65 ≤ c && c ≤ 90) || (97 ≤ c && c ≤ 122) || c == 95

/-- `[A-Z0-9]`. -/
def isAz09 (c : Nat) : Bool := (65 ≤ c && c ≤ 90) || (48 ≤ c && c ≤ 57)

/-- Word-character test on the character preceding the current position
(`none` at the start of the string). -/
def wordOpt : Option Nat → Bool
  | none => false
  | some c => isWordChar c

/-- Word-character test on the first character (false at end of string). -/
def wordHead : PyStr → Bool
  | [] => false
  | c :: _ => isWordChar c

/-- `[A-Z0-9]` test on the first character. -/
def az09Head : PyStr → Bool
  | [] => false
  | c :: _ => isAz09 c

/-- `p` is a prefix of `l`. -/
def leadsWith : PyStr → PyStr → Bool
  | [], _ => true
  | _ :: _, [] => false
  | a :: p, b :: l => a == b && leadsWith p l

/-- `pat` occurs as a contiguous substring of `l`. -/
def containsSub (pat : PyStr) : PyStr → Bool
  | [] => leadsWith pat []
  | c :: cs => leadsWith pat (c :: cs) || containsSub pat cs

/-- Search for `\bLIT\b` anywhere: at some position the previous character
is absent or a non-word character, `lit` starts there, and the character
after it is absent or a non-word character. -/
def searchWordB (lit : PyStr) : Option Nat → PyStr → Bool
  | prev, [] =>
    !wordOpt prev && leadsWith lit [] && !wordHead (([] : PyStr).drop lit.length)
  | prev, c :: cs =>
    (!wordOpt prev && leadsWith lit (c :: cs) && !wordHead ((c :: cs).drop lit.length))
      || searchWordB lit (some c) cs

/-- Search for `\bLIT[A-Z0-9]+` anywhere: boundary before `lit`, then at
least one `[A-Z0-9]` character after it. -/
def searchWordBPlus (lit : PyStr) : Option Nat → PyStr → Bool
  | prev, [] =>
    !wordOpt prev && leadsWith lit [] && az09Head (([] : PyStr).drop lit.length)
  | prev, c :: cs =>
    (!wordOpt prev && leadsWith lit (c :: cs) && az09Head ((c :: cs).drop lit.length))
      || searchWordBPlus lit (some c) cs

inductive Pat where
  | sub (lit : PyStr)
  | lineAnchored (lit : PyStr)
  | startAnchoredWordB (lit : PyStr)
  | wordBounded (lit : PyStr)
  | wordBClassPlus (lit : PyStr)
deriving DecidableEq

/-- `rule.pattern.search(d)` for the five pattern shapes of the table. -/
def Pat.search : Pat → PyStr → Bool
  | .sub lit, d => containsSub lit d
  | .lineAnchored lit, d =>
    let d1 := d.dropWhile isPySpace
    leadsWith lit d1 && (d1.drop lit.length).all isPySpace
  | .startAnchoredWordB lit, d =>
    let d1 := d.dropWhile isPySpace
    leadsWith lit d1 && !wordHead (d1.drop lit.length)
  | .wordBounded lit, d => searchWordB lit none d
  | .wordBClassPlus lit, d => searchWordBPlus lit none d

/-- The literal codepoints of a pattern. -/
def Pat.lit : Pat → PyStr
  | .sub l => l
  | .lineAnchored l => l
  | .startAnchoredWordB l => l
  | .wordBounded l => l
  | .wordBClassPlus l => l

/-- `rules.Rule`. -/
structure Rule where
  id : String
  pattern : Pat
  category : String
  subcategory : String
deriving DecidableEq

/-- A plain-literal (substring) pattern. -/
def sub (s : String) : Pat := Pat.sub (litOfString s)

set_option maxHeartbeats 1600000 in
/-- `rules.RULES` — the ordered table, transcribed rule by rule.
Regex escapes of literal characters (`\ `, `\-`, `\.`, `\&`, `\(`, `\)`,
`\*`, `\,`) are written as the characters themselves.  `R061`'s literal
`M'MA TURINETTI` is written with codepoint 39 for the apostrophe. -/
def RULES : List Rule := [
  ⟨"R001", Pat.lineAnchored (litOfString "PASS"), "CHARGES_VARIABLES", "TRANSPORTS_COMMUN"⟩,
  ⟨"R002", Pat.startAnchoredWordB (litOfString "TOTAL"), "CHARGES_VARIABLES", "CARBURANT"⟩,
  ⟨"R003", sub "Incoming transfer from M PAUL DENHEZ (FR7616275500000412664270831)", "DIVERS", "AJUSTEMENTS_ERREURS"⟩,
  ⟨"R004", sub "Paiement accepté: FR7616275500000412664270831 à DE74502109007020623696", "DIVERS", "AJUSTEMENTS_ERREURS"⟩,
  ⟨"R005", Pat.wordBClassPlus (litOfString "AMAZON.FR*"), "ACHATS", "DIVERS"⟩,
  ⟨"R006", sub "Incoming transfer from Paul Denhez (FR802043302626N269793476611)", "DIVERS", "AJUSTEMENTS_ERREURS"⟩,
  ⟨"R007", sub "Incoming transfer from M PAUL DENHEZ", "DIVERS", "AJUSTEMENTS_ERREURS"⟩,
  ⟨"R008", sub "GARFO - FOOD & BEVERAGE.", "ALIMENTATION", "RESTAURANTS"⟩,
  ⟨"R009", sub "CARRIS - RUA 1 MAIO,-00", "ACHATS", "DIVERS"⟩,
  ⟨"R010", sub "NESPRESSO FRANCE S.A.S.", "ACHATS", "CAFE"⟩,
  ⟨"R011", sub "LS LA COUR DE LA CHTI", "ALIMENTATION", "RESTAURANTS"⟩,
  ⟨"R012", sub "SNC LE BIENVENU 4069410", "ACHATS", "TABAC"⟩,
  ⟨"R013", sub "Metropolitano de Lisboa", "CHARGES_VARIABLES", "TRANSPORTS_COMMUN"⟩,
  ⟨"R014", sub "NYX*LILLEAUTOMATIQUEDIST", "ACHATS", "CAFE"⟩,
  ⟨"R015", sub "PHAR BOURGMAYER 4194069", "SANTE", "PHARMACIE"⟩,
  ⟨"R016", sub "Association Ruban Rose", "DIVERS", "DONS"⟩,
  ⟨"R017", sub "Cash reward allocation", "DIVERS", "AJUSTEMENTS_ERREURS"⟩,
  ⟨"R018", sub "NYX*VALENCIENNESPLACEDA", "ACHATS", "DIVERS"⟩,
  ⟨"R019", sub "PHARMACIE VALS 2151306", "SANTE", "AUTRE_MEDECINE"⟩,
  ⟨"R020", sub "PICARD SA 335 4998985", "ALIMENTATION", "COURSES"⟩,
  ⟨"R021", sub "BAR BILTOKI HALLES D", "ALIMENTATION", "RESTAURANTS"⟩,
  ⟨"R022", sub "CONTIN BOM DIA LISBO", "ALIMENTATION", "COURSES"⟩,
  ⟨"R023", sub "Your Saveback payment", "DIVERS", "AJUSTEMENTS_ERREURS"⟩,
  ⟨"R024", sub "ELECTRO DEPOT FRANCE", "MAISON", "EQUIPEMENT_ELECTROMENAGER"⟩,
  ⟨"R025", sub "LISBON DUTY FREE T2", "LOISIRS", "VACANCES_WEEKENDS"⟩,
  ⟨"R026", sub "CIVETTE DE LA TOUR", "ACHATS", "TABAC"⟩,
  ⟨"R027", sub "MIGUEL CASTRO-SILVA", "ACHATS", "DIVERS"⟩,
  ⟨"R028", sub "PADEL FOOTBALL CLUB", "LOISIRS", "SPORT"⟩,
  ⟨"R029", sub "RELAY TRIBS 4116230", "ACHATS", "DIVERS"⟩,
  ⟨"R030", sub "RESTAURANTE FERNANDO", "ALIMENTATION", "RESTAURANTS"⟩,
  ⟨"R031", sub "4PADEL Valenciennes", "LOISIRS", "SPORT"⟩,
  ⟨"R032", sub "CONTINENTE BOM DIA", "ACHATS", "DIVERS"⟩,
  ⟨"R033", sub "COURIR VALENCIENNES", "ACHATS", "VETEMENTS"⟩,
  ⟨"R034", sub "FERME DU PONT DES", "ALIMENTATION", "COURSES"⟩,
  ⟨"R035", sub "GRAND FRAIS AULNOY", "ALIMENTATION", "COURSES"⟩,
  ⟨"R036", sub "MCDONALDS AEROPORTO", "ALIMENTATION", "RESTAURANTS"⟩,
  ⟨"R037", sub "MGP*Le Pot Commun", "ACHATS", "CADEAUX"⟩,
  ⟨"R038", sub "GELATOMANIA NAZARE", "ALIMENTATION", "RESTAURANTS"⟩,
  ⟨"R039", sub "LE CYRANO 4266161", "ACHATS", "TABAC"⟩,
  ⟨"R040", sub "LE JUBILE 4357453", "ALIMENTATION", "RESTAURANTS"⟩,
  ⟨"R041", sub "BIE DE LA HALLE", "ALIMENTATION", "BOUCHERIE"⟩,
  ⟨"R042", sub "E0022API EDS ONE", "ALIMENTATION", "RESTAURANTS"⟩,
  ⟨"R043", sub "PADEL FOOTBALL C", "LOISIRS", "SPORT"⟩,
  ⟨"R044", sub "PASTEIS DE BELEM", "ALIMENTATION", "COURSES"⟩,
  ⟨"R045", sub "SHIFU RAMEN REST", "ALIMENTATION", "RESTAURANTS"⟩,
  ⟨"R046", sub "SumUp *SBCONCEPT", "ACHATS", "SOIN DE LA PERSONNE"⟩,
  ⟨"R047", sub "TERRACO EDITORIAL", "ACHATS", "DIVERS"⟩,
  ⟨"R048", sub "Interest payment", "BANQUE", "INTERETS"⟩,
  ⟨"R049", sub "MCDONALDS CHIADO", "ALIMENTATION", "RESTAURANTS"⟩,
  ⟨"R050", sub "SnP*SPEED PIZZA", "ALIMENTATION", "RESTAURANTS"⟩,
  ⟨"R051", sub "BEER EXPERIENCE", "ACHATS", "DIVERS"⟩,
  ⟨"R052", sub "CHEZ MON VIEUX", "ALIMENTATION", "RESTAURANTS"⟩,
  ⟨"R053", sub "DCTR MARGUERITT", "SANTE", "MEDECIN"⟩,
  ⟨"R054", sub "GD FRAIS SENTI", "ALIMENTATION", "COURSES"⟩,
  ⟨"R055", sub "MA DUQUE LOULE", "ACHATS", "DIVERS"⟩,
  ⟨"R056", sub "SINTRA LRO TVM", "CHARGES_VARIABLES", "TRANSPORTS_COMMUN"⟩,
  ⟨"R057", sub "APPLE.COM/BILL", "CHARGES_FIXES", "ABONNEMENTS_FIXES"⟩,
  ⟨"R058", sub "DELEBARRE VINS", "ACHATS", "CADEAUX"⟩,
  ⟨"R059", sub "EURL A MOREAU", "ALIMENTATION", "BOULANGERIE"⟩,
  ⟨"R060", sub "FERME DU SART", "ALIMENTATION", "COURSES"⟩,
  ⟨"R061", Pat.sub (litOfString "M" ++ [39] ++ litOfString "MA TURINETTI"), "ALIMENTATION", "RESTAURANTS"⟩,
  ⟨"R062", sub "MARIE BLACHERE", "ALIMENTATION", "COURSES"⟩,
  ⟨"R063", sub "SINTRA TERRACE", "ALIMENTATION", "RESTAURANTS"⟩,
  ⟨"R064", sub "TIME OUT SHOP", "LOISIRS", "VACANCES_WEEKENDS"⟩,
  ⟨"R065", sub "VINS GOURMANDS", "ACHATS", "VIN"⟩,
  ⟨"R066", sub "WEB TENNIS SC", "LOISIRS", "SPORT"⟩,
  ⟨"R067", sub "SUR LE POUCE", "ALIMENTATION", "RESTAURANTS"⟩,
  ⟨"R068", sub "Zettle_*Sahil", "ALIMENTATION", "RESTAURANTS"⟩,
  ⟨"R069", sub "LE LONGCHAMP", "ACHATS", "TABAC"⟩,
  ⟨"R070", sub "MAISON RINC", "ACHATS", "CADEAUX"⟩,
  ⟨"R071", sub "SAS BONDUWE", "ACHATS", "DIVERS"⟩,
  ⟨"R072", sub "SPEED PIZZA", "ALIMENTATION", "RESTAURANTS"⟩,
  ⟨"R073", sub "TCE 4332548", "LOISIRS", "SPORT"⟩,
  ⟨"R074", sub "VAL VIANDES", "ALIMENTATION", "BOUCHERIE"⟩,
  ⟨"R075", sub "CAFES REMY", "ACHATS", "CAFE"⟩,
  ⟨"R076", sub "INTERMARCHE", "ALIMENTATION", "COURSES"⟩,
  ⟨"R077", sub "LE VALENCY", "ACHATS", "TABAC"⟩,
  ⟨"R078", sub "VINI LILLE", "ALIMENTATION", "RESTAURANTS"⟩,
  ⟨"R079", sub "SP WILDDE", "ACHATS", "SOIN DE LA PERSONNE"⟩,
  ⟨"R080", sub "RIGOLETTO", "ALIMENTATION", "RESTAURANTS"⟩,
  ⟨"R081", sub "SAS BETA", "ALIMENTATION", "BOULANGERIE"⟩,
  ⟨"R082", sub "EL GANA", "ALIMENTATION", "RESTAURANTS"⟩,
  ⟨"R083", sub "O TERA", "ALIMENTATION", "COURSES"⟩,
  ⟨"R084", sub "CHOOSE", "ACHATS", "DIVERS"⟩,
  ⟨"R085", sub "MYTHOS", "ALIMENTATION", "RESTAURANTS"⟩,
  ⟨"R086", sub "OXYBUL", "ACHATS", "CADEAUX"⟩,
  ⟨"R087", sub "VPC", "ACHATS", "CAFE"⟩,
  ⟨"R088", Pat.wordBounded (litOfString "SAVINGS PLAN EXECUTION"), "EPARGNE", "INVESTISSEMENTS"⟩,
  ⟨"R089", Pat.wordBounded (litOfString "AMAZON PAYMENTS"), "ACHATS", "DIVERS"⟩,
  ⟨"R090", Pat.wordBounded (litOfString "ALIM CARREFOUR"), "ALIMENTATION", "COURSES"⟩,
  ⟨"R091", Pat.wordBounded (litOfString "AMAZON EU SARL"), "ACHATS", "DIVERS"⟩,
  ⟨"R092", Pat.wordBounded (litOfString "AMAZON PRIME"), "CHARGES_FIXES", "ABONNEMENTS_FIXES"⟩,
  ⟨"R093", Pat.wordBounded (litOfString "LEROY MERLIN"), "MAISON", "BRICOLAGE"⟩,
  ⟨"R094", Pat.wordBounded (litOfString "AMZN MKTP"), "ACHATS", "DIVERS"⟩,
  ⟨"R095", Pat.wordBounded (litOfString "ZENPARK"), "CHARGES_VARIABLES", "STATIONNEMENT_PEAGES"⟩]

/-- The `for rule in RULES` loop of `predict_by_rules`: first match wins. -/
def scanRules : List Rule → PyStr → Option (String × String × String)
  | [], _ => none
  | r :: rs, d =>
    if r.pattern.search d then some (r.category, r.subcategory, r.id)
    else scanRules rs d

/-- `rules.predict_by_rules`: normalize, then scan the table in order;
returns `(category, subcategory, rule_id)` of the first matching rule. -/
def predict_by_rules (description : PyStr) : Option (String × String × String) :=
  scanRules RULES (normalize_description (some description))

/-! ### `app/ml_model.py` -/

/-- A Python float value as produced by `float(str)`.  Finite values are
modelled exactly as rationals; `float` also accepts the special spellings
`inf`/`infinity` and `nan` (any case, optionally signed), which produce
non-finite values.  Binary rounding and overflow to infinity of huge
decimal literals are not modelled. -/
inductive PyFloat where
  | finite (q : Rat)
  | inf
  | neginf
  | nan
deriving DecidableEq

def PyFloat.isFinite : PyFloat → Bool
  | .finite _ => true
  | _ => false

/-- `0`-`9`. -/
def isDigitN (c : Nat) : Bool := 48 ≤ c && c ≤ 57

/-- Continue a Python `digitpart` after at least one digit has been read:
digits, with single underscores allowed only between digits.  Returns the
digits read (underscores dropped) and the unconsumed rest. -/
def grabDigitsCont : PyStr → List Nat × PyStr
  | [] => ([], [])
  | c :: cs =>
    if isDigitN c then
      let p := grabDigitsCont cs
      (c :: p.1, p.2)
    else if c == 95 then
      match cs with
      | d :: cs2 =>
        if isDigitN d then
          let p := grabDigitsCont cs2
          (d :: p.1, p.2)
        else ([], c :: cs)
      | [] => ([], [c])
    else ([], c :: cs)

/-- Read a Python `digitpart` (possibly empty): nonempty iff the first
character is a digit. -/
def grabDigits : PyStr → List Nat × PyStr
  | [] => ([], [])
  | c :: cs =>
    if isDigitN c then
      let p := grabDigitsCont cs
      (c :: p.1, p.2)
    else ([], c :: cs)

/-- Numeric value of a digit string. -/
def digitsVal (ds : List Nat) : Nat := ds.foldl (fun a c => 10 * a + (c - 48)) 0

/-- Case-insensitive comparison against an (uppercase) keyword. -/
def ciEq (l : PyStr) (s : String) : Bool := l.map upChar == litOfString s

/-- Optional sign: returns (negative?, rest). -/
def takeSign : PyStr → Bool × PyStr
  | 43 :: r => (false, r)
  | 45 :: r => (true, r)
  | l => (false, l)

/-- The number accepted by Python `float(str)` on an input that carries no
surrounding whitespace: `[sign] (digitpart [. digitpart?] | . digitpart)
[(e|E) [sign] digitpart] | [sign] (inf|infinity|nan)` (keywords
case-insensitive).  Returns `none` when the string is not accepted
(`float` raises `ValueError` there). -/
def pyFloatOfString (t : PyStr) : Option PyFloat :=
  let s := takeSign t
  let neg := s.1
  let r := s.2
  if ciEq r "INF" || ciEq r "INFINITY" then
    some (if neg then PyFloat.neginf else PyFloat.inf)
  else if ciEq r "NAN" then
    some PyFloat.nan
  else
    let ip := grabDigits r
    let fp : Option (List Nat) × PyStr :=
      match ip.2 with
      | 46 :: rest =>
        let q := grabDigits rest
        (some q.1, q.2)
      | _ => (none, ip.2)
    if ip.1.isEmpty && (fp.1.getD []).isEmpty then none
    else
      let mant : Rat :=
        (digitsVal ip.1 : Rat) + (digitsVal (fp.1.getD []) : Rat) / ((10 : Rat) ^ (fp.1.getD []).length)
      match fp.2 with
      | [] => some (PyFloat.finite (if neg then -mant else mant))
      | c :: rest =>
        if c == 101 || c == 69 then
          let es := takeSign rest
          let ep := grabDigits es.2
          if ep.1.isEmpty || !ep.2.isEmpty then none
          else
            let v : Rat :=
              if es.1 then mant / ((10 : Rat) ^ digitsVal ep.1)
              else mant * ((10 : Rat) ^ digitsVal ep.1)
            some (PyFloat.finite (if neg then -v else v))
        else none

/-- `str(x).strip().replace(" ", "").replace(",", ".")`: strip
whitespace, remove every space, replace every comma by a period. -/
def pyCleanAmount (s : PyStr) : PyStr :=
  ((pyStrip s).filter (fun c => !(c == 32))).map (fun c => if c == 44 then 46 else c)

/-- `ml_model._parse_amount`: `None` yields `0.0`; otherwise clean the
text and attempt `float(...)`; any parse failure yields `0.0`. -/
def _parse_amount (x : Option PyStr) : PyFloat :=
  match x with
  | none => PyFloat.finite 0
  | some s =>
    match pyFloatOfString (pyCleanAmount s) with
    | some v => v
    | none => PyFloat.finite 0

/-- `ml_model.MlPrediction`. -/
structure MlPrediction where
  category : PyStr
  subcategory : PyStr
  confidence : Rat
deriving DecidableEq

/-- `str(tx.get(key, "") or "")`: a missing or null (or empty) field
becomes the empty string. -/
def strOrEmpty (v : Option PyStr) : PyStr :=
  match v with
  | none => []
  | some s => s

/-- A transaction record as read by the core: each field may be missing
or null. The `montant` field is modelled as text (`none` covers both a
missing key, whose `0.0` default parses to `0`, and an explicit null). -/
structure Tx where
  description : Option PyStr
  ttype : Option PyStr
  sens : Option PyStr
  montant : Option PyStr

/-- The single-row DataFrame assembled in `TxModel.predict`
(keys `Description`, `Type`, `Sens`, `MontantNum`). -/
structure FeatureRow where
  desc : PyStr
  typ : PyStr
  sens : PyStr
  montantNum : PyFloat

def featureRow (tx : Tx) : FeatureRow :=
  ⟨strOrEmpty tx.description, strOrEmpty tx.ttype, strOrEmpty tx.sens,
    _parse_amount tx.montant⟩

/-- The externally trained sklearn pipeline, abstracted to its observable
interface: a label for a feature row and, when the estimator exposes
`predict_proba`, the maximum class probability for a feature row. -/
structure Pipeline where
  predictLabel : FeatureRow → PyStr
  predictProbaMax : Option (FeatureRow → Rat)

/-- `ml_model.TxModel`: `pipeline` is `none` until a successful `load`. -/
structure TxModel where
  pipeline : Option Pipeline

def TxModel.is_loaded (m : TxModel) : Bool := m.pipeline.isSome

/-- The literal separator `" / "`. -/
def mlSep : PyStr := [32, 47, 32]

/-- `label.split(sep, 1)` when `sep` occurs in `label`: split at the
first occurrence of `sep`; `none` when `sep` does not occur. -/
def splitFirst (sep : PyStr) : PyStr → Option (PyStr × PyStr)
  | [] => if leadsWith sep [] then some ([], ([] : PyStr).drop sep.length) else none
  | c :: cs =>
    if leadsWith sep (c :: cs) then some ([], (c :: cs).drop sep.length)
    else (splitFirst sep cs).map (fun p => (c :: p.1, p.2))

/-- The label the pipeline produces for a transaction. -/
def mlLabel (pl : Pipeline) (tx : Tx) : PyStr := pl.predictLabel (featureRow tx)

/-- The confidence reported for a transaction: the maximum class
probability when the pipeline has `predict_proba`, else `0.0`. -/
def mlConf (pl : Pipeline) (tx : Tx) : Rat :=
  match pl.predictProbaMax with
  | some f => f (featureRow tx)
  | none => 0

/-- `ml_model.TxModel.predict`: `None` when not loaded; otherwise build
the feature row, get label and confidence, and split the label on the
first `" / "` (the whole label is the category and the subcategory is
empty when the separator is absent). -/
def TxModel.predict (m : TxModel) (tx : Tx) : Option MlPrediction :=
  match m.pipeline with
  | none => none
  | some pl =>
    match splitFirst mlSep (mlLabel pl tx) with
    | some p => some ⟨p.1, p.2, mlConf pl tx⟩
    | none => some ⟨mlLabel pl tx, [], mlConf pl tx⟩

/-! ### `app/model.py` -/

/-- `model.ClassificationResult` (the result dict of
`predict_transaction`). -/
structure ClassificationResult where
  category : PyStr
  subcategory : Option PyStr
  confidence : Rat
  method : String
  rule_id : Option String
deriving DecidableEq

/-- The terminal `UNKNOWN` result. -/
def fallbackResult : ClassificationResult :=
  ⟨litOfString "UNKNOWN", none, 0, "fallback", none⟩

/-- `model.predict_transaction`: rules first, then ML, then fallback.
`ml` is the module-level `_ml` (set to `None` when the model artifact
failed to load at startup).  The load-time `print` diagnostics of the
source are side effects with no bearing on the result and are not
modelled. -/
def predict_transaction (ml : Option TxModel) (tx : Tx) : ClassificationResult :=
  let description := strOrEmpty tx.description
  match predict_by_rules description with
  | some r => ⟨litOfString r.1, some (litOfString r.2.1), 1, "rules", some r.2.2⟩
  | none =>
    match ml with
    | some m =>
      match m.predict tx with
      | some pred => ⟨pred.category, some pred.subcategory, pred.confidence, "ml", none⟩
      | none => fallbackResult
    | none => fallbackResult

/-- Observable queries made while serving one request. -/
inductive TraceEv where
  | rulesQ
  | mlQ
deriving DecidableEq

/-- `predict_transaction` instrumented with the sequence of tier queries
it performs, in order: the rule matcher is queried first, and the
classifier is queried exactly when no rule matched and `_ml` is not
`None`.  The result component coincides with `predict_transaction`
(proved below). -/
def predict_transaction_trace (ml : Option TxModel) (tx : Tx) :
    ClassificationResult × List TraceEv :=
  let description := strOrEmpty tx.description
  match predict_by_rules description with
  | some r =>
    (⟨litOfString r.1, some (litOfString r.2.1), 1, "rules", some r.2.2⟩, [TraceEv.rulesQ])
  | none =>
    match ml with
    | some m =>
      match m.predict tx with
      | some pred =>
        (⟨pred.category, some pred.subcategory, pred.confidence, "ml", none⟩,
          [TraceEv.rulesQ, TraceEv.mlQ])
      | none => (fallbackResult, [TraceEv.rulesQ, TraceEv.mlQ])
    | none => (fallbackResult, [TraceEv.rulesQ])

/-- `_ml.predict(tx)` guarded by the `_ml is not None` check: the
classifier verdict available to the orchestrator (`none` both when the
model never loaded and when `predict` returns `None`). -/
def mlVerdict (ml : Option TxModel) (tx : Tx) : Option MlPrediction :=
  match ml with
  | none => none
  | some m => m.predict tx

/-! ### Lemmas about the rule scan -/

theorem scanRules_eq_none_iff (rs : List Rule) (d : PyStr) :
    scanRules rs d = none ↔ ∀ r ∈ rs, r.pattern.search d = false := by
  induction rs with
  | nil => simp [scanRules]
  | cons r rs ih =>
    by_cases h : r.pattern.search d = true
    · simp [scanRules, h]
    · simp only [Bool.not_eq_true] at h
      simp [scanRules, h, ih]

theorem scanRules_first (rs : List Rule) (d : PyStr) (i : Nat) (h : i < rs.length)
    (hm : (rs.get ⟨i, h⟩).pattern.search d = true)
    (hb : ∀ j (hj : j < i), (rs.get ⟨j, Nat.lt_trans hj h⟩).pattern.search d = false) :
    scanRules rs d =
      some ((rs.get ⟨i, h⟩).category, (rs.get ⟨i, h⟩).subcategory, (rs.get ⟨i, h⟩).id) := by
  induction rs generalizing i with
  | nil => simp at h
  | cons r rs ih =>
    cases i with
    | zero =>
      simp only [List.get] at hm ⊢
      simp [scanRules, hm]
    | succ n =>
      have hn : n < rs.length := Nat.lt_of_succ_lt_succ h
      have h0 : r.pattern.search d = false := by
        simpa [List.get] using hb 0 (Nat.succ_pos n)
      have hm' : (rs.get ⟨n, hn⟩).pattern.search d = true := by
        simpa [List.get] using hm
      have hb' : ∀ j (hj : j < n),
          (rs.get ⟨j, Nat.lt_trans hj hn⟩).pattern.search d = false := by
        intro j hj
        simpa [List.get] using hb (j + 1) (Nat.succ_lt_succ hj)
      have := ih n hn hm' hb'
      simpa [scanRules, h0, List.get] using this

theorem scanRules_mem (rs : List Rule) (d : PyStr) (c s i : String)
    (h : scanRules rs d = some (c, s, i)) :
    ∃ r ∈ rs, r.id = i ∧ r.pattern.search d = true := by
  induction rs with
  | nil => simp [scanRules] at h
  | cons r rs ih =>
    by_cases hr : r.pattern.search d = true
    · refine ⟨r, by simp, ?_, hr⟩
      simp [scanRules, hr] at h
      exact h.2.2
    · simp only [Bool.not_eq_true] at hr
      simp only [scanRules, hr] at h
      obtain ⟨r', hr', hid, hs⟩ := ih (by simpa using h)
      exact ⟨r', by simp [hr'], hid, hs⟩

/-- C1.  First match wins: whenever rule `i` matches the normalized
description and every earlier rule does not, `predict_by_rules` returns
exactly rule `i`'s `(category, subcategory, rule_id)` triple; and it
returns `none` precisely when no rule of the table matches. -/
theorem first_match_wins (d : PyStr) :
    (∀ (i : Nat) (h : i < RULES.length),
        (RULES.get ⟨i, h⟩).pattern.search (normalize_description (some d)) = true →
        (∀ j (hj : j < i),
          (RULES.get ⟨j, Nat.lt_trans hj h⟩).pattern.search
            (normalize_description (some d)) = false) →
        predict_by_rules d =
          some ((RULES.get ⟨i, h⟩).category, (RULES.get ⟨i, h⟩).subcategory,
            (RULES.get ⟨i, h⟩).id))
    ∧ (predict_by_rules d = none ↔
        ∀ r ∈ RULES, r.pattern.search (normalize_description (some d)) = false) := by
  constructor
  · intro i h hm hb
    exact scanRules_first RULES (normalize_description (some d)) i h hm hb
  · exact scanRules_eq_none_iff RULES (normalize_description (some d))

/-- Witness for C1 at the concrete description `"PASS"`: rule `R001`
(index 0) matches and there is no earlier rule, so the scan returns its
triple. -/
theorem first_match_wins_witness :
    predict_by_rules (litOfString "PASS") =
      some ("CHARGES_VARIABLES", "TRANSPORTS_COMMUN", "R001") := by
  have h := (first_match_wins (litOfString "PASS")).1 0 (by decide) (by decide)
    (fun j hj => absurd hj (Nat.not_lt_zero j))
  exact h.trans (by decide)

/-! ### The orchestrator tiers -/

/-- C2.  Rules tier: when the description matches a rule, the result
carries that rule's category and subcategory, confidence exactly `1.0`,
method `"rules"`, and the matching rule's identifier — for every state of
the classifier and every such transaction. -/
theorem rules_tier (ml : Option TxModel) (tx : Tx) (c s i : String)
    (h : predict_by_rules (strOrEmpty tx.description) = some (c, s, i)) :
    predict_transaction ml tx =
      ⟨litOfString c, some (litOfString s), 1, "rules", some i⟩ := by
  unfold predict_transaction
  simp [h]

/-- Witness for C2: the transaction with description `"PASS"` and no
classifier loaded yields the `R001` result. -/
theorem rules_tier_witness :
    predict_transaction none ⟨some (litOfString "PASS"), none, none, none⟩ =
      ⟨litOfString "CHARGES_VARIABLES", some (litOfString "TRANSPORTS_COMMUN"),
        1, "rules", some "R001"⟩ :=
  rules_tier none ⟨some (litOfString "PASS"), none, none, none⟩
    "CHARGES_VARIABLES" "TRANSPORTS_COMMUN" "R001" (by decide)

/-- C3.  Fallback completeness: when no rule matches and the classifier
is unavailable or yields no verdict, the result is exactly
`{category := "UNKNOWN", subcategory := absent, confidence := 0.0,
method := "fallback", rule_id := absent}` — a defined result of the total
function `predict_transaction`, not an error. -/
theorem fallback_complete (ml : Option TxModel) (tx : Tx)
    (hr : predict_by_rules (strOrEmpty tx.description) = none)
    (hm : mlVerdict ml tx = none) :
    predict_transaction ml tx =
      ⟨litOfString "UNKNOWN", none, 0, "fallback", none⟩ := by
  unfold predict_transaction
  cases ml with
  | none => simp [hr, fallbackResult]
  | some m =>
    have : m.predict tx = none := by simpa [mlVerdict] using hm
    simp [hr, this, fallbackResult]

/-- Witness for C3: an all-absent transaction with no classifier loaded
yields the `UNKNOWN` fallback result. -/
theorem fallback_complete_witness :
    predict_transaction none ⟨none, none, none, none⟩ =
      ⟨litOfString "UNKNOWN", none, 0, "fallback", none⟩ :=
  fallback_complete none ⟨none, none, none, none⟩ (by decide) rfl

/-- C7.  Single forward pass: per request the rule matcher is queried
exactly once; the classifier is never queried when a rule matched; and
the instrumented run computes the same result as `predict_transaction`
(so no tier is ever re-attempted). -/
theorem single_forward_pass (ml : Option TxModel) (tx : Tx) :
    ((predict_transaction_trace ml tx).2.count TraceEv.rulesQ = 1)
    ∧ ((predict_by_rules (strOrEmpty tx.description)).isSome = true →
        TraceEv.mlQ ∉ (predict_transaction_trace ml tx).2)
    ∧ (predict_transaction_trace ml tx).1 = predict_transaction ml tx := by
  unfold predict_transaction_trace predict_transaction
  cases h : predict_by_rules (strOrEmpty tx.description) with
  | some r => simp [h, List.count_cons]
  | none =>
    cases ml with
    | none => simp [h, List.count_cons]
    | some m =>
      cases hp : m.predict tx with
      | some pred => simp [h, hp, List.count_cons]
      | none => simp [h, hp, List.count_cons]

/-- Witness for C7 at a rule-matching transaction: the classifier is not
consulted. -/
theorem single_forward_pass_witness :
    TraceEv.mlQ ∉ (predict_transaction_trace none
      ⟨some (litOfString "PASS"), none, none, none⟩).2 :=
  (single_forward_pass none ⟨some (litOfString "PASS"), none, none, none⟩).2.1
    (by decide)

/-- C10.  Output shape: `method` is always one of `"rules"`, `"ml"`,
`"fallback"`; `rule_id` is present exactly on the rules tier; and
`subcategory` is absent exactly on the fallback tier (the ml tier turns a
separator-free label into the empty string, which is present). -/
theorem output_shape (ml : Option TxModel) (tx : Tx) :
    ((predict_transaction ml tx).method = "rules"
      ∨ (predict_transaction ml tx).method = "ml"
      ∨ (predict_transaction ml tx).method = "fallback")
    ∧ ((predict_transaction ml tx).rule_id ≠ none ↔
        (predict_transaction ml tx).method = "rules")
    ∧ ((predict_transaction ml tx).subcategory = none ↔
        (predict_transaction ml tx).method = "fallback") := by
  unfold predict_transaction
  cases h : predict_by_rules (strOrEmpty tx.description) with
  | some r => simp [h]
  | none =>
    cases ml with
    | none => simp [h, fallbackResult]
    | some m =>
      cases hp : m.predict tx with
      | some pred => simp [h, hp]
      | none => simp [h, hp, fallbackResult]

/-- Witness for C10: shape facts at a concrete fallback run. -/
theorem output_shape_witness :
    (predict_transaction none ⟨none, none, none, none⟩).subcategory = none ↔
      (predict_transaction none ⟨none, none, none, none⟩).method = "fallback" :=
  (output_shape none ⟨none, none, none, none⟩).2.2

/-! ### Shape of normalized strings

The spec describes the normalizer's output as an uppercased string with
no leading/trailing whitespace whose internal whitespace runs are single
ASCII spaces; the following Boolean predicates state that shape. -/

/-- The first character, if any, is not whitespace. -/
def headOkWs (l : PyStr) : Bool :=
  match l with
  | [] => true
  | c :: _ => !isPySpace c

/-- The last character, if any, is not whitespace. -/
def endsNonWs : PyStr → Bool
  | [] => true
  | [c] => !isPySpace c
  | _ :: c :: r => endsNonWs (c :: r)

/-- Every whitespace character is the ASCII space 32. -/
def wsAre32 (l : PyStr) : Bool := l.all (fun c => !isPySpace c || c == 32)

/-- No two adjacent whitespace characters. -/
def noAdjWs : PyStr → Bool
  | [] => true
  | [_] => true
  | a :: b :: r => !(isPySpace a && isPySpace b) && noAdjWs (b :: r)

theorem isPySpace_upChar (c : Nat) : isPySpace (upChar c) = isPySpace c := by
  by_cases h : isLowerAscii c = true
  · have hc : 97 ≤ c ∧ c ≤ 122 := by simpa [isLowerAscii] using h
    have h1 : isPySpace (c - 32) = false := by simp [isPySpace]; omega
    have h2 : isPySpace c = false := by simp [isPySpace]; omega
    simp [upChar, h, h1, h2]
  · simp [upChar, h]

theorem upChar_id (c : Nat) (h : isLowerAscii c = false) : upChar c = c := by
  simp [upChar, h]

theorem isLowerAscii_upChar (c : Nat) : isLowerAscii (upChar c) = false := by
  by_cases h : isLowerAscii c = true
  · have hc : 97 ≤ c ∧ c ≤ 122 := by simpa [isLowerAscii] using h
    have hu : upChar c = c - 32 := by simp [upChar, h]
    rw [hu]
    simp [isLowerAscii]
    omega
  · simp only [Bool.not_eq_true] at h
    rw [upChar_id c h]
    exact h

theorem headOkWs_dropWhile (l : PyStr) : headOkWs (l.dropWhile isPySpace) = true := by
  induction l with
  | nil => rfl
  | cons c cs ih =>
    by_cases h : isPySpace c = true
    · simpa [List.dropWhile_cons, h] using ih
    · simp only [Bool.not_eq_true] at h
      simp [List.dropWhile_cons, h, headOkWs]

theorem dropWhile_eq_self_of_headOk (l : PyStr) (h : headOkWs l = true) :
    l.dropWhile isPySpace = l := by
  cases l with
  | nil => rfl
  | cons c cs =>
    simp only [headOkWs, Bool.not_eq_true'] at h
    simp [List.dropWhile_cons, h]

theorem mem_of_mem_dropWhile (l : PyStr) (c : Nat)
    (h : c ∈ l.dropWhile isPySpace) : c ∈ l := by
  induction l with
  | nil => simpa using h
  | cons a cs ih =>
    by_cases ha : isPySpace a = true
    · simp only [List.dropWhile_cons, ha, if_pos] at h
      exact List.mem_cons_of_mem a (ih h)
    · simp only [Bool.not_eq_true] at ha
      simpa [List.dropWhile_cons, ha] using h

theorem endsNonWs_cons (a : Nat) (l : PyStr) (h : l ≠ []) :
    endsNonWs (a :: l) = endsNonWs l := by
  cases l with
  | nil => exact absurd rfl h
  | cons b r => rfl

theorem endsNonWs_append_last (x : PyStr) (c : Nat) :
    endsNonWs (x ++ [c]) = !isPySpace c := by
  induction x with
  | nil => rfl
  | cons a x ih =>
    have hx : x ++ [c] ≠ [] := by simp
    calc endsNonWs (a :: (x ++ [c])) = endsNonWs (x ++ [c]) := endsNonWs_cons a _ hx
    _ = !isPySpace c := ih

theorem headOkWs_append (x y : PyStr) (hx : x ≠ []) :
    headOkWs (x ++ y) = headOkWs x := by
  cases x with
  | nil => exact absurd rfl hx
  | cons a r => rfl

theorem endsNonWs_reverse (l : PyStr) : endsNonWs l.reverse = headOkWs l := by
  cases l with
  | nil => rfl
  | cons a r =>
    rw [List.reverse_cons, endsNonWs_append_last]
    rfl

theorem headOkWs_reverse (l : PyStr) : headOkWs l.reverse = endsNonWs l := by
  induction l with
  | nil => rfl
  | cons a l ih =>
    cases l with
    | nil => rfl
    | cons b r =>
      rw [List.reverse_cons, headOkWs_append _ _ (by simp), ih,
        endsNonWs_cons a _ (by simp)]

theorem endsNonWs_dropWhile (l : PyStr) :
    endsNonWs l = true → endsNonWs (l.dropWhile isPySpace) = true := by
  induction l with
  | nil => intro h; simpa using h
  | cons c cs ih =>
    intro h
    by_cases hc : isPySpace c = true
    · cases cs with
      | nil => simp [endsNonWs, hc] at h
      | cons b r =>
        have h' : endsNonWs (b :: r) = true := by
          rwa [endsNonWs_cons c _ (by simp)] at h
        simpa [List.dropWhile_cons, hc] using ih h'
    · simp only [Bool.not_eq_true] at hc
      simpa [List.dropWhile_cons, hc] using h

theorem dropWhile_ne_nil_of_endsNonWs (l : PyStr) :
    l ≠ [] → endsNonWs l = true → l.dropWhile isPySpace ≠ [] := by
  induction l with
  | nil => intro h; exact absurd rfl h
  | cons c cs ih =>
    intro _ h
    by_cases hc : isPySpace c = true
    · cases cs with
      | nil => simp [endsNonWs, hc] at h
      | cons b r =>
        have h' : endsNonWs (b :: r) = true := by
          rwa [endsNonWs_cons c _ (by simp)] at h
        simpa [List.dropWhile_cons, hc] using ih (by simp) h'
    · simp only [Bool.not_eq_true] at hc
      simp [List.dropWhile_cons, hc]

theorem pyStrip_headOk (l : PyStr) : headOkWs (pyStrip l) = true := by
  unfold pyStrip
  rw [headOkWs_reverse]
  apply endsNonWs_dropWhile
  rw [endsNonWs_reverse]
  exact headOkWs_dropWhile l

theorem pyStrip_endsOk (l : PyStr) : endsNonWs (pyStrip l) = true := by
  unfold pyStrip
  rw [endsNonWs_reverse]
  exact headOkWs_dropWhile _

theorem pyStrip_eq_self (l : PyStr) (h1 : headOkWs l = true)
    (h2 : endsNonWs l = true) : pyStrip l = l := by
  unfold pyStrip
  rw [dropWhile_eq_self_of_headOk l h1,
    dropWhile_eq_self_of_headOk l.reverse (by rw [headOkWs_reverse]; exact h2),
    List.reverse_reverse]

theorem headOkWs_map_upChar (l : PyStr) : headOkWs (l.map upChar) = headOkWs l := by
  cases l with
  | nil => rfl
  | cons c cs => simp [headOkWs, isPySpace_upChar]

theorem endsNonWs_map_upChar (l : PyStr) : endsNonWs (l.map upChar) = endsNonWs l := by
  induction l with
  | nil => rfl
  | cons a l ih =>
    cases l with
    | nil => simp [endsNonWs, isPySpace_upChar]
    | cons b r =>
      rw [show (a :: b :: r).map upChar = upChar a :: (b :: r).map upChar from rfl,
        endsNonWs_cons _ _ (by simp), ih, endsNonWs_cons a _ (by simp)]

theorem map_upChar_eq_self (l : PyStr)
    (h : l.all (fun c => !isLowerAscii c) = true) : l.map upChar = l := by
  induction l with
  | nil => rfl
  | cons c cs ih =>
    simp only [List.all_cons, Bool.and_eq_true, Bool.not_eq_true'] at h
    rw [List.map_cons, upChar_id c h.1, ih h.2]

theorem headOkWs_collapseAux_true (l : PyStr) :
    headOkWs (collapseAux true l) = true := by
  induction l with
  | nil => rfl
  | cons c cs ih =>
    by_cases h : isPySpace c = true
    · simpa [collapseAux, h] using ih
    · simp only [Bool.not_eq_true] at h
      simp [collapseAux, h, headOkWs]

theorem headOkWs_collapseAux_false (l : PyStr) (h : headOkWs l = true) :
    headOkWs (collapseAux false l) = true := by
  cases l with
  | nil => rfl
  | cons c cs =>
    simp only [headOkWs, Bool.not_eq_true'] at h
    simp [collapseAux, h, headOkWs]

theorem wsAre32_collapseAux (l : PyStr) : ∀ b, wsAre32 (collapseAux b l) = true := by
  induction l with
  | nil => intro b; rfl
  | cons c cs ih =>
    intro b
    by_cases h : isPySpace c = true
    · cases b with
      | true => simpa [collapseAux, h] using ih true
      | false =>
        have := ih true
        simp only [wsAre32] at this ⊢
        simp [collapseAux, h, this]
    · simp only [Bool.not_eq_true] at h
      have := ih false
      simp only [wsAre32] at this ⊢
      simp [collapseAux, h, this]

theorem noAdjWs_cons_eq (a : Nat) (l : PyStr) :
    noAdjWs (a :: l) =
      ((match l with
        | [] => true
        | b :: _ => !(isPySpace a && isPySpace b)) && noAdjWs l) := by
  cases l with
  | nil => simp [noAdjWs]
  | cons b r => rfl

theorem noAdjWs_collapseAux (l : PyStr) : ∀ b, noAdjWs (collapseAux b l) = true := by
  induction l with
  | nil => intro b; rfl
  | cons c cs ih =>
    intro b
    by_cases h : isPySpace c = true
    · cases b with
      | true => simpa [collapseAux, h] using ih true
      | false =>
        have hh := headOkWs_collapseAux_true cs
        have ht := ih true
        rw [show collapseAux false (c :: cs) = 32 :: collapseAux true cs from by
          simp [collapseAux, h]]
        rw [noAdjWs_cons_eq]
        cases hX : collapseAux true cs with
        | nil => rfl
        | cons d r =>
          have hd : isPySpace d = false := by
            have := hh
            rw [hX] at this
            simpa [headOkWs, Bool.not_eq_true'] using this
          rw [hX] at ht
          simp [hd, ht]
    · simp only [Bool.not_eq_true] at h
      have ht := ih false
      rw [show collapseAux b (c :: cs) = c :: collapseAux false cs from by
        cases b <;> simp [collapseAux, h]]
      rw [noAdjWs_cons_eq]
      cases hX : collapseAux false cs with
      | nil => rfl
      | cons d r =>
        rw [hX] at ht
        simp [h, ht]

theorem collapseAux_ne_nil (l : PyStr) :
    ∀ b, l ≠ [] → endsNonWs l = true → collapseAux b l ≠ [] := by
  induction l with
  | nil => intro b h _; exact absurd rfl h
  | cons c cs ih =>
    intro b _ h
    by_cases hc : isPySpace c = true
    · cases cs with
      | nil => simp [endsNonWs, hc] at h
      | cons d r =>
        have h' : endsNonWs (d :: r) = true := by
          rwa [endsNonWs_cons c _ (by simp)] at h
        cases b with
        | true => simpa [collapseAux, hc] using ih true (by simp) h'
        | false => simp [collapseAux, hc]
    · simp only [Bool.not_eq_true] at hc
      cases b <;> simp [collapseAux, hc]

theorem endsNonWs_collapseAux (l : PyStr) :
    ∀ b, endsNonWs l = true → endsNonWs (collapseAux b l) = true := by
  induction l with
  | nil => intro b _; rfl
  | cons c cs ih =>
    intro b h
    cases cs with
    | nil =>
      have hc : isPySpace c = false := by simpa [endsNonWs, Bool.not_eq_true'] using h
      cases b <;> simp [collapseAux, hc, endsNonWs]
    | cons d r =>
      have h' : endsNonWs (d :: r) = true := by
        rwa [endsNonWs_cons c _ (by simp)] at h
      have hne := collapseAux_ne_nil (d :: r) true (by simp) h'
      by_cases hc : isPySpace c = true
      · cases b with
        | true => simpa [collapseAux, hc] using ih true h'
        | false =>
          rw [show collapseAux false (c :: d :: r) = 32 :: collapseAux true (d :: r) from by
            simp [collapseAux, hc]]
          rw [endsNonWs_cons 32 _ hne]
          exact ih true h'
      · simp only [Bool.not_eq_true] at hc
        have hnef := collapseAux_ne_nil (d :: r) false (by simp) h'
        cases b with
        | true =>
          rw [show collapseAux true (c :: d :: r) = c :: collapseAux false (d :: r) from by
            simp [collapseAux, hc]]
          rw [endsNonWs_cons c _ hnef]
          exact ih false h'
        | false =>
          rw [show collapseAux false (c :: d :: r) = c :: collapseAux false (d :: r) from by
            simp [collapseAux, hc]]
          rw [endsNonWs_cons c _ hnef]
          exact ih false h'

theorem collapseAux_flag (l : PyStr) (h : headOkWs l = true) :
    collapseAux true l = collapseAux false l := by
  cases l with
  | nil => rfl
  | cons c cs =>
    have hc : isPySpace c = false := by
      simpa [headOkWs, Bool.not_eq_true'] using h
    simp [collapseAux, hc]

theorem collapseAux_eq_self (l : PyStr) :
    wsAre32 l = true → noAdjWs l = true → collapseAux false l = l := by
  induction l with
  | nil => intro _ _; rfl
  | cons c cs ih =>
    intro h1 h2
    have h1' : wsAre32 cs = true := by
      simp only [wsAre32, List.all_cons, Bool.and_eq_true] at h1
      exact h1.2
    have h2' : noAdjWs cs = true := by
      rw [noAdjWs_cons_eq, Bool.and_eq_true] at h2
      exact h2.2
    by_cases hc : isPySpace c = true
    · have hc32 : c = 32 := by
        simp only [wsAre32, List.all_cons, Bool.and_eq_true, hc, Bool.not_true,
          Bool.false_or, beq_iff_eq] at h1
        exact h1.1
      cases cs with
      | nil => simp [collapseAux, hc, hc32]
      | cons d r =>
        have hd : isPySpace d = false := by
          rw [noAdjWs_cons_eq, Bool.and_eq_true] at h2
          have := h2.1
          simpa [hc] using this
        rw [show collapseAux false (c :: d :: r) = 32 :: collapseAux true (d :: r) from by
          simp [collapseAux, hc]]
        rw [collapseAux_flag (d :: r) (by simp [headOkWs, hd])]
        rw [ih h1' h2', hc32]
    · simp only [Bool.not_eq_true] at hc
      rw [show collapseAux false (c :: cs) = c :: collapseAux false cs from by
        simp [collapseAux, hc]]
      rw [ih h1' h2']

theorem mem_collapseAux (l : PyStr) (c : Nat) :
    ∀ b, c ∈ collapseAux b l → c = 32 ∨ c ∈ l := by
  induction l with
  | nil => intro b h; simp [collapseAux] at h
  | cons a cs ih =>
    intro b h
    by_cases ha : isPySpace a = true
    · cases b with
      | true =>
        rw [show collapseAux true (a :: cs) = collapseAux true cs from by
          simp [collapseAux, ha]] at h
        rcases ih true h with h32 | hmem
        · exact Or.inl h32
        · exact Or.inr (List.mem_cons_of_mem a hmem)
      | false =>
        rw [show collapseAux false (a :: cs) = 32 :: collapseAux true cs from by
          simp [collapseAux, ha]] at h
        rcases List.mem_cons.mp h with h32 | hmem
        · exact Or.inl h32
        · rcases ih true hmem with h32 | hmem'
          · exact Or.inl h32
          · exact Or.inr (List.mem_cons_of_mem a hmem')
    · simp only [Bool.not_eq_true] at ha
      rw [show collapseAux b (a :: cs) = a :: collapseAux false cs from by
        cases b <;> simp [collapseAux, ha]] at h
      rcases List.mem_cons.mp h with heq | hmem
      · exact Or.inr (heq ▸ List.mem_cons_self a cs)
      · rcases ih false hmem with h32 | hmem'
        · exact Or.inl h32
        · exact Or.inr (List.mem_cons_of_mem a hmem')

theorem normalize_noLower (t : PyStr) :
    (normalize_description (some t)).all (fun c => !isLowerAscii c) = true := by
  rw [List.all_eq_true]
  intro c hc
  rcases mem_collapseAux _ c false hc with h32 | hmem
  · subst h32; rfl
  · rcases List.mem_map.mp hmem with ⟨a, _, rfl⟩
    simp [isLowerAscii_upChar]

theorem normalize_headOk (t : PyStr) :
    headOkWs (normalize_description (some t)) = true := by
  apply headOkWs_collapseAux_false
  rw [headOkWs_map_upChar]
  exact pyStrip_headOk t

theorem normalize_endsOk (t : PyStr) :
    endsNonWs (normalize_description (some t)) = true := by
  apply endsNonWs_collapseAux
  rw [endsNonWs_map_upChar]
  exact pyStrip_endsOk t

theorem normalize_wsAre32 (t : PyStr) :
    wsAre32 (normalize_description (some t)) = true :=
  wsAre32_collapseAux _ false

theorem normalize_noAdjWs (t : PyStr) :
    noAdjWs (normalize_description (some t)) = true :=
  noAdjWs_collapseAux _ false

theorem normalize_idem (t : PyStr) :
    normalize_description (some (normalize_description (some t))) =
      normalize_description (some t) := by
  show collapseWs ((pyStrip (normalize_description (some t))).map upChar) =
    normalize_description (some t)
  rw [pyStrip_eq_self _ (normalize_headOk t) (normalize_endsOk t),
    map_upChar_eq_self _ (normalize_noLower t)]
  exact collapseAux_eq_self _ (normalize_wsAre32 t) (normalize_noAdjWs t)

/-- C6.  The normalizer is total (`None` yields the empty string; the
output is always a defined string), its output is uppercased (no ASCII
lowercase letter survives), carries no leading or trailing whitespace,
every whitespace character in it is the single ASCII space and no two
are adjacent, and it is idempotent. -/
theorem normalize_total_canonical_idempotent :
    normalize_description none = []
    ∧ ∀ t : PyStr,
        (normalize_description (some t)).all (fun c => !isLowerAscii c) = true
        ∧ headOkWs (normalize_description (some t)) = true
        ∧ endsNonWs (normalize_description (some t)) = true
        ∧ wsAre32 (normalize_description (some t)) = true
        ∧ noAdjWs (normalize_description (some t)) = true
        ∧ normalize_description (some (normalize_description (some t))) =
            normalize_description (some t) :=
  ⟨rfl, fun t => ⟨normalize_noLower t, normalize_headOk t, normalize_endsOk t,
    normalize_wsAre32 t, normalize_noAdjWs t, normalize_idem t⟩⟩

/-! ### Rules whose pattern can never match the uppercased text -/

/-- The pattern literal contains an ASCII lowercase letter. -/
def hasLowerLit (p : Pat) : Bool := p.lit.any isLowerAscii

theorem leadsWith_subset (p : PyStr) :
    ∀ l, leadsWith p l = true → ∀ c ∈ p, c ∈ l := by
  induction p with
  | nil => intro l _ c hc; simp at hc
  | cons a p ih =>
    intro l h c hc
    cases l with
    | nil => simp [leadsWith] at h
    | cons b l' =>
      simp only [leadsWith, Bool.and_eq_true, beq_iff_eq] at h
      rcases List.mem_cons.mp hc with rfl | hcp
      · exact h.1 ▸ List.mem_cons_self b l'
      · exact List.mem_cons_of_mem b (ih l' h.2 c hcp)

theorem containsSub_subset (p : PyStr) :
    ∀ l, containsSub p l = true → ∀ c ∈ p, c ∈ l := by
  intro l
  induction l with
  | nil => intro h c hc; exact leadsWith_subset p [] h c hc
  | cons b l' ih =>
    intro h c hc
    simp only [containsSub, Bool.or_eq_true] at h
    rcases h with h1 | h2
    · exact leadsWith_subset p _ h1 c hc
    · exact List.mem_cons_of_mem b (ih h2 c hc)

theorem searchWordB_subset (lit : PyStr) :
    ∀ prev d, searchWordB lit prev d = true → ∀ c ∈ lit, c ∈ d := by
  intro prev d
  induction d generalizing prev with
  | nil =>
    intro h c hc
    simp only [searchWordB, Bool.and_eq_true] at h
    exact leadsWith_subset lit [] h.1.2 c hc
  | cons b d' ih =>
    intro h c hc
    simp only [searchWordB, Bool.or_eq_true, Bool.and_eq_true] at h
    rcases h with h1 | h2
    · exact leadsWith_subset lit _ h1.1.2 c hc
    · exact List.mem_cons_of_mem b (ih (some b) h2 c hc)

theorem searchWordBPlus_subset (lit : PyStr) :
    ∀ prev d, searchWordBPlus lit prev d = true → ∀ c ∈ lit, c ∈ d := by
  intro prev d
  induction d generalizing prev with
  | nil =>
    intro h c hc
    simp only [searchWordBPlus, Bool.and_eq_true] at h
    exact leadsWith_subset lit [] h.1.2 c hc
  | cons b d' ih =>
    intro h c hc
    simp only [searchWordBPlus, Bool.or_eq_true, Bool.and_eq_true] at h
    rcases h with h1 | h2
    · exact leadsWith_subset lit _ h1.1.2 c hc
    · exact List.mem_cons_of_mem b (ih (some b) h2 c hc)

/-- A matching pattern only uses characters present in the searched
string: every character of the pattern literal occurs in `d`. -/
theorem Pat.search_subset (p : Pat) (d : PyStr) (h : p.search d = true) :
    ∀ c ∈ p.lit, c ∈ d := by
  intro c hc
  cases p with
  | sub lit => exact containsSub_subset lit d h c hc
  | lineAnchored lit =>
    simp only [Pat.search, Bool.and_eq_true] at h
    exact mem_of_mem_dropWhile d c (leadsWith_subset lit _ h.1 c hc)
  | startAnchoredWordB lit =>
    simp only [Pat.search, Bool.and_eq_true] at h
    exact mem_of_mem_dropWhile d c (leadsWith_subset lit _ h.1 c hc)
  | wordBounded lit => exact searchWordB_subset lit none d h c hc
  | wordBClassPlus lit => exact searchWordBPlus_subset lit none d h c hc

theorem search_false_of_hasLower (p : Pat) (d : PyStr)
    (hd : d.all (fun c => !isLowerAscii c) = true) (hp : hasLowerLit p = true) :
    p.search d = false := by
  by_contra hcon
  rw [Bool.not_eq_false] at hcon
  obtain ⟨c, hc, hlow⟩ := List.any_eq_true.mp hp
  have hcd := Pat.search_subset p d hcon c hc
  have := (List.all_eq_true.mp hd) c hcd
  rw [hlow] at this
  simp at this

/-- Each of `R013`, `R017`, `R037` carries a lowercase letter in its
pattern literal (checked by evaluation over the table). -/
theorem lower_rules_have_lower :
    RULES.all (fun r =>
      !(r.id == "R013" || r.id == "R017" || r.id == "R037")
        || hasLowerLit r.pattern) = true := by decide

/-- C9.  Case-sensitivity dead rules: the matcher searches only the
uppercased normalized description, so the rule that fires never has a
lowercase letter in its pattern literal; in particular the returned
`rule_id` is never `"R013"`, `"R017"` or `"R037"`, whose patterns
require lowercase letters. -/
theorem lowercase_rules_never_fire (d : PyStr) (c s i : String)
    (h : predict_by_rules d = some (c, s, i)) :
    (∃ r ∈ RULES, r.id = i ∧ hasLowerLit r.pattern = false)
    ∧ i ≠ "R013" ∧ i ≠ "R017" ∧ i ≠ "R037" := by
  obtain ⟨r, hrm, hid, hsearch⟩ := scanRules_mem RULES _ c s i h
  have hnl : hasLowerLit r.pattern = false := by
    by_contra hcon
    rw [Bool.not_eq_false] at hcon
    have := search_false_of_hasLower r.pattern _ (normalize_noLower d) hcon
    rw [hsearch] at this
    simp at this
  refine ⟨⟨r, hrm, hid, hnl⟩, ?_, ?_, ?_⟩ <;>
  · intro hi
    have hr := (List.all_eq_true.mp lower_rules_have_lower) r hrm
    rw [hid, hi] at hr
    simp [hnl] at hr

/-- Witness for C9 at the rule-matching description `"PASS"`. -/
theorem lowercase_rules_never_fire_witness :
    ("R001" : String) ≠ "R013" ∧ ("R001" : String) ≠ "R017"
      ∧ ("R001" : String) ≠ "R037" :=
  (lowercase_rules_never_fire (litOfString "PASS")
    "CHARGES_VARIABLES" "TRANSPORTS_COMMUN" "R001" (by decide)).2

/-! ### Label decomposition on the ml tier -/

theorem leadsWith_append_self (p r : PyStr) : leadsWith p (p ++ r) = true := by
  induction p with
  | nil => rfl
  | cons a p ih => simpa [leadsWith] using ih

theorem splitFirst_eq_none_iff (sep l : PyStr) :
    splitFirst sep l = none ↔ containsSub sep l = false := by
  induction l with
  | nil =>
    by_cases h : leadsWith sep [] = true
    · simp [splitFirst, containsSub, h]
    · simp only [Bool.not_eq_true] at h
      simp [splitFirst, containsSub, h]
  | cons b l' ih =>
    by_cases h : leadsWith sep (b :: l') = true
    · simp [splitFirst, containsSub, h]
    · simp only [Bool.not_eq_true] at h
      simp [splitFirst, containsSub, h, ih]

/-- When `l` decomposes as `a ++ sep ++ b` with no occurrence of `sep`
starting inside `a`, the split at the first occurrence returns `(a, b)`. -/
theorem splitFirst_first_occurrence (sep : PyStr) :
    ∀ a b, (∀ j, j < a.length → leadsWith sep ((a ++ (sep ++ b)).drop j) = false) →
      splitFirst sep (a ++ (sep ++ b)) = some (a, b) := by
  intro a
  induction a with
  | nil =>
    intro b _
    cases sep with
    | nil => cases b <;> simp [splitFirst, leadsWith]
    | cons s0 sr =>
      have hl : leadsWith (s0 :: sr) (s0 :: (sr ++ b)) = true :=
        leadsWith_append_self (s0 :: sr) b
      rw [show (([] : PyStr) ++ ((s0 :: sr) ++ b)) = s0 :: (sr ++ b) from rfl]
      simp only [splitFirst]
      rw [if_pos hl]
      rw [show (s0 :: (sr ++ b)) = (s0 :: sr) ++ b from rfl, List.drop_left]
  | cons a0 arest ih =>
    intro b hocc
    have h0 : leadsWith sep (a0 :: (arest ++ (sep ++ b))) = false := by
      simpa using hocc 0 (by simp)
    have hrest : ∀ j, j < arest.length →
        leadsWith sep ((arest ++ (sep ++ b)).drop j) = false := by
      intro j hj
      simpa using hocc (j + 1) (by simpa using Nat.succ_lt_succ hj)
    rw [show ((a0 :: arest) ++ (sep ++ b)) = a0 :: (arest ++ (sep ++ b)) from rfl]
    simp only [splitFirst]
    rw [if_neg (by simp [h0])]
    rw [ih b hrest]
    rfl

/-- A concrete classifier used by witnesses: constant label
`"ALIMENTATION / RESTAURANTS"`, constant maximum class probability
`0.8`. -/
def demoPipeline : Pipeline :=
  ⟨fun _ => litOfString "ALIMENTATION / RESTAURANTS", some (fun _ => (4 : Rat) / 5)⟩

def demoModel : TxModel := ⟨some demoPipeline⟩

/-- C4.  Classifier path with label decomposition: when no rule matches
and the pipeline is loaded, the result is
`{category, subcategory, confidence := reported, method := "ml",
rule_id := absent}`, where the label is split at the *first* occurrence
of the literal `" / "` into category (left) and subcategory (right), and
a separator-free label becomes the category with an empty subcategory. -/
theorem ml_tier_label_decomposition (m : TxModel) (pl : Pipeline) (tx : Tx)
    (hr : predict_by_rules (strOrEmpty tx.description) = none)
    (hpl : m.pipeline = some pl) :
    (∀ a b : PyStr, mlLabel pl tx = a ++ mlSep ++ b →
        (∀ j, j < a.length → leadsWith mlSep ((mlLabel pl tx).drop j) = false) →
        predict_transaction (some m) tx = ⟨a, some b, mlConf pl tx, "ml", none⟩)
    ∧ (containsSub mlSep (mlLabel pl tx) = false →
        predict_transaction (some m) tx =
          ⟨mlLabel pl tx, some [], mlConf pl tx, "ml", none⟩) := by
  constructor
  · intro a b hlab hocc
    have hsplit : splitFirst mlSep (mlLabel pl tx) = some (a, b) := by
      rw [hlab, List.append_assoc]
      apply splitFirst_first_occurrence
      intro j hj
      have := hocc j hj
      rwa [hlab, List.append_assoc] at this
    have hpred : m.predict tx = some ⟨a, b, mlConf pl tx⟩ := by
      simp [TxModel.predict, hpl, hsplit]
    unfold predict_transaction
    simp [hr, hpred]
  · intro hnc
    have hsplit : splitFirst mlSep (mlLabel pl tx) = none :=
      (splitFirst_eq_none_iff _ _).mpr hnc
    have hpred : m.predict tx = some ⟨mlLabel pl tx, [], mlConf pl tx⟩ := by
      simp [TxModel.predict, hpl, hsplit]
    unfold predict_transaction
    simp [hr, hpred]

/-- Witness for C4: the spec's example — no rule matches, the classifier
reports `"ALIMENTATION / RESTAURANTS"` with probability `0.8`, and the
result is `{ALIMENTATION, RESTAURANTS, 0.8, "ml", no rule_id}`. -/
theorem ml_tier_label_decomposition_witness :
    predict_transaction (some demoModel) ⟨none, none, none, none⟩ =
      ⟨litOfString "ALIMENTATION", some (litOfString "RESTAURANTS"),
        4 / 5, "ml", none⟩ := by
  have h := (ml_tier_label_decomposition demoModel demoPipeline
      ⟨none, none, none, none⟩ (by decide) rfl).1
      (litOfString "ALIMENTATION") (litOfString "RESTAURANTS")
      (by decide) (by decide)
  exact h.trans rfl

/-- The classifier verdict under a loaded pipeline always reports the
pipeline's confidence. -/
theorem predict_confidence (m : TxModel) (pl : Pipeline) (tx : Tx)
    (hm : m.pipeline = some pl) :
    ∃ pred, m.predict tx = some pred ∧ pred.confidence = mlConf pl tx := by
  cases hs : splitFirst mlSep (mlLabel pl tx) with
  | some p => exact ⟨⟨p.1, p.2, mlConf pl tx⟩, by simp [TxModel.predict, hm, hs], rfl⟩
  | none => exact ⟨⟨mlLabel pl tx, [], mlConf pl tx⟩, by simp [TxModel.predict, hm, hs], rfl⟩

/-- C8.  Confidence invariant: assuming the external estimator's reported
maximum class probability lies in `[0, 1]` (an sklearn guarantee), the
returned confidence lies in `[0, 1]`; it is exactly `1` on the rules
tier, exactly `0` on the fallback tier, and on the ml tier it is the
adapter's reported confidence passed through unmodified. -/
theorem confidence_unit_interval (ml : Option TxModel) (tx : Tx)
    (hp : ∀ m pl f, ml = some m → m.pipeline = some pl →
        pl.predictProbaMax = some f →
        0 ≤ f (featureRow tx) ∧ f (featureRow tx) ≤ 1) :
    (0 ≤ (predict_transaction ml tx).confidence
      ∧ (predict_transaction ml tx).confidence ≤ 1)
    ∧ ((predict_transaction ml tx).method = "rules" →
        (predict_transaction ml tx).confidence = 1)
    ∧ ((predict_transaction ml tx).method = "fallback" →
        (predict_transaction ml tx).confidence = 0)
    ∧ (∀ m pl, ml = some m → m.pipeline = some pl →
        (predict_transaction ml tx).method = "ml" →
        (predict_transaction ml tx).confidence = mlConf pl tx) := by
  cases h : predict_by_rules (strOrEmpty tx.description) with
  | some r =>
    have hres : predict_transaction ml tx =
        ⟨litOfString r.1, some (litOfString r.2.1), 1, "rules", some r.2.2⟩ := by
      unfold predict_transaction
      simp [h]
    rw [hres]
    exact ⟨⟨by norm_num, by norm_num⟩, fun _ => rfl,
      fun hf => by simp at hf, fun m pl _ _ hml => by simp at hml⟩
  | none =>
    cases ml with
    | none =>
      have hres : predict_transaction none tx =
          ⟨litOfString "UNKNOWN", none, 0, "fallback", none⟩ := by
        unfold predict_transaction
        simp [h, fallbackResult]
      rw [hres]
      exact ⟨⟨le_refl 0, by norm_num⟩, fun hf => by simp at hf,
        fun _ => rfl, fun m pl hm => by simp at hm⟩
    | some m =>
      cases hmp : m.pipeline with
      | none =>
        have hpred : m.predict tx = none := by simp [TxModel.predict, hmp]
        have hres : predict_transaction (some m) tx =
            ⟨litOfString "UNKNOWN", none, 0, "fallback", none⟩ := by
          unfold predict_transaction
          simp [h, hpred, fallbackResult]
        rw [hres]
        refine ⟨⟨le_refl 0, by norm_num⟩, fun hf => by simp at hf,
          fun _ => rfl, ?_⟩
        intro m' pl hm' hpl' _
        have hmm : m = m' := Option.some.inj hm'
        rw [← hmm, hmp] at hpl'
        exact absurd hpl' (by simp)
      | some pl =>
        obtain ⟨pred, hpred, hconf⟩ := predict_confidence m pl tx hmp
        have hbounds : 0 ≤ mlConf pl tx ∧ mlConf pl tx ≤ 1 := by
          cases hfp : pl.predictProbaMax with
          | some f =>
            have := hp m pl f rfl hmp hfp
            simpa [mlConf, hfp] using this
          | none => simp [mlConf, hfp]
        have hres : predict_transaction (some m) tx =
            ⟨pred.category, some pred.subcategory, mlConf pl tx, "ml", none⟩ := by
          unfold predict_transaction
          simp [h, hpred, hconf]
        rw [hres]
        refine ⟨⟨hbounds.1, hbounds.2⟩,
          fun hf => by simp at hf, fun hf => by simp at hf, ?_⟩
        intro m' pl' hm' hpl' _
        have hmm : m = m' := Option.some.inj hm'
        rw [← hmm, hmp] at hpl'
        have hpp : pl = pl' := Option.some.inj hpl'
        rw [← hpp]

/-- Witness for C8: with the demo classifier (probability `0.8`) the
returned confidence of a no-rule transaction is within `[0, 1]`. -/
theorem confidence_unit_interval_witness :
    0 ≤ (predict_transaction (some demoModel) ⟨none, none, none, none⟩).confidence
    ∧ (predict_transaction (some demoModel) ⟨none, none, none, none⟩).confidence ≤ 1 :=
  (confidence_unit_interval (some demoModel) ⟨none, none, none, none⟩ (by
    intro m pl f hm hpl hf
    have hmm : demoModel = m := Option.some.inj hm
    subst hmm
    have hpp : demoPipeline = pl := Option.some.inj hpl
    subst hpp
    have hff : (fun _ => (4 : Rat) / 5) = f := Option.some.inj hf
    subst hff
    constructor <;> norm_num)).1

/-! ### The amount parser -/

/-- C5 counterexample: `_parse_amount("inf")` is not a finite number —
Python `float("inf")` succeeds and yields positive infinity, so the
claim that every input produces a finite number fails at `"inf"`. -/
theorem parse_amount_inf_not_finite :
    (_parse_amount (some (litOfString "inf"))).isFinite = false := by decide

/-- C5 (amended).  The amount parser is total and never raises: it is a
total function into defined values; any parse failure yields `0.0`, and
`parse_amount("29,21") = 29.21`, `parse_amount(None) = 0.0`,
`parse_amount("abc") = 0.0`.  However the result is not always finite:
inputs spelling an infinity or NaN are accepted by the numeric parse, so
`parse_amount("inf")` is positive infinity. -/
theorem parse_amount_total_examples :
    (∀ s : PyStr, pyFloatOfString (pyCleanAmount s) = none →
        _parse_amount (some s) = PyFloat.finite 0)
    ∧ _parse_amount (some (litOfString "29,21")) = PyFloat.finite (2921 / 100)
    ∧ _parse_amount none = PyFloat.finite 0
    ∧ _parse_amount (some (litOfString "abc")) = PyFloat.finite 0
    ∧ _parse_amount (some (litOfString "inf")) = PyFloat.inf := by
  refine ⟨?_, ?_, rfl, ?_, ?_⟩
  · intro s h
    simp [_parse_amount, h]
  · have hclean : pyCleanAmount (litOfString "29,21") = [50, 57, 46, 50, 49] := by
      decide
    have h1 : takeSign [50, 57, 46, 50, 49] = (false, [50, 57, 46, 50, 49]) := by
      decide
    have h2 : grabDigits [50, 57, 46, 50, 49] = ([50, 57], [46, 50, 49]) := by
      decide
    have h3 : grabDigits [50, 49] = ([50, 49], []) := by decide
    have h4 : ciEq [50, 57, 46, 50, 49] "INF" = false := by decide
    have h5 : ciEq [50, 57, 46, 50, 49] "INFINITY" = false := by decide
    have h6 : ciEq [50, 57, 46, 50, 49] "NAN" = false := by decide
    have h7 : digitsVal [50, 57] = 29 := by decide
    have h8 : digitsVal [50, 49] = 21 := by decide
    have hfloat : pyFloatOfString [50, 57, 46, 50, 49] =
        some (PyFloat.finite (2921 / 100)) := by
      simp only [pyFloatOfString, h1, h2, h3, h4, h5, h6, h7, h8]
      norm_num [h8]
    simp [_parse_amount, hclean, hfloat]
  · have h : pyFloatOfString (pyCleanAmount (litOfString "abc")) = none := by decide
    simp [_parse_amount, h]
  · have h : pyFloatOfString (pyCleanAmount (litOfString "inf")) = some PyFloat.inf := by
      decide
    simp [_parse_amount, h]

/-- Witness for C5's amended theorem: a failing parse defaults to `0.0`
at the concrete input `"xyz"`. -/
theorem parse_amount_total_examples_witness :
    _parse_amount (some (litOfString "xyz")) = PyFloat.finite 0 :=
  parse_amount_total_examples.1 (litOfString "xyz") (by decide)

end TxCat
